import Mathlib

/-!
Verification of the receipt-field extraction pipeline of `src/services/ocr.js`
(the ResellApp repository).  The JavaScript source is shallowly embedded over
`List Char`: strings are lists of characters, regular-expression matching is
embedded as explicit leftmost scanners with the exact greedy/backtracking
behaviour of the concrete patterns, monetary amounts are modelled in integer
cents (`89.99` dollars = `8999` cents, the plausibility bound `5000` dollars =
`500000` cents), and the ASCII fragments of JavaScript's `toLowerCase` /
`toUpperCase` / `trim` are modelled by explicit character tables.  All
definitions are executable so that concrete receipts evaluate by `decide`.
-/

/-! ### Character classes (ASCII model of the JavaScript built-ins) -/

/-- Whitespace characters recognised by `\s`, `trim()` (ASCII fragment). -/
def isWS (c : Char) : Bool :=
  c == ' ' || c == '\t' || c == '\n' || c == '\r' || c == '\x0b' || c == '\x0c'

/-- Word characters of the regex class `\w` / of the `\b` boundary: `[A-Za-z0-9_]`. -/
def isWordChar (c : Char) : Bool :=
  c.isAlpha || c.isDigit || c == '_'

/-- The lower/upper case pairs of the ASCII letters. -/
def upPairs : List (Char × Char) :=
  [('a','A'), ('b','B'), ('c','C'), ('d','D'), ('e','E'), ('f','F'), ('g','G'),
   ('h','H'), ('i','I'), ('j','J'), ('k','K'), ('l','L'), ('m','M'), ('n','N'),
   ('o','O'), ('p','P'), ('q','Q'), ('r','R'), ('s','S'), ('t','T'), ('u','U'),
   ('v','V'), ('w','W'), ('x','X'), ('y','Y'), ('z','Z')]

/-- ASCII model of JavaScript `toUpperCase` on one character. -/
def upCh (c : Char) : Char :=
  match upPairs.find? (fun p => p.1 == c) with
  | some p => p.2
  | none => c

/-- ASCII model of JavaScript `toLowerCase` on one character. -/
def lowCh (c : Char) : Char :=
  match upPairs.find? (fun p => p.2 == c) with
  | some p => p.1
  | none => c

/-! ### Generic list/string utilities -/

/-- JavaScript `trim()` on a line (strip leading and trailing whitespace). -/
def trimL (l : List Char) : List Char :=
  ((l.dropWhile isWS).reverse.dropWhile isWS).reverse

/-- Exact prefix test (case-sensitive). -/
def startsWithL : List Char → List Char → Bool
  | [], _ => true
  | _ :: _, [] => false
  | a :: w, c :: l => a == c && startsWithL w l

/-- Case-insensitive prefix test, modelling a `/…/i` literal at one position. -/
def startsWithCI : List Char → List Char → Bool
  | [], _ => true
  | _ :: _, [] => false
  | a :: w, c :: l => lowCh a == lowCh c && startsWithCI w l

/-- `l.includes(w)` on strings: `w` occurs as a contiguous substring. -/
def containsSub (w : List Char) : List Char → Bool
  | [] => startsWithL w []
  | c :: r => startsWithL w (c :: r) || containsSub w r

/-- Does some suffix of the text satisfy the position matcher `f`
(leftmost-scan existence, i.e. regex `test`)? -/
def anyTailB (f : List Char → Bool) : List Char → Bool
  | [] => f []
  | c :: r => f (c :: r) || anyTailB f r

/-- First (leftmost) successful position match of `f`, i.e. `text.match(p)`
for a non-anchored pattern: the match at the earliest start position wins. -/
def findFirst (f : List Char → Option Nat) : List Char → Option Nat
  | [] => none
  | c :: r =>
    match f (c :: r) with
    | some v => some v
    | none => findFirst f r

/-- Decimal digits to a natural number (`parseInt(ds, 10)` for a digit run). -/
def digitsToNat (ds : List Char) : Nat :=
  ds.foldl (fun n c => 10 * n + (c.toNat - '0'.toNat)) 0

/-- `text.split('\n')`: all segments, empties included. -/
def splitLinesAux (cur : List Char) : List Char → List (List Char)
  | [] => [cur.reverse]
  | c :: r => if c == '\n' then cur.reverse :: splitLinesAux [] r
              else splitLinesAux (c :: cur) r

/-- The normalizer of `parseReceiptText`:
`text.split('\n').map(l => l.trim()).filter(l => l.length > 0)`. -/
def normalizeText (text : List Char) : List (List Char) :=
  ((splitLinesAux [] text).map trimL).filter (fun l => !l.isEmpty)

/-- `line.split(/\s+/)` on an already-trimmed line: the maximal runs of
non-whitespace characters, in order. -/
def wsTokensAux (cur : List Char) : List Char → List (List Char)
  | [] => if cur.isEmpty then [] else [cur.reverse]
  | c :: r =>
    if isWS c then
      (if cur.isEmpty then wsTokensAux [] r else cur.reverse :: wsTokensAux [] r)
    else wsTokensAux (c :: cur) r

def wsTokens (l : List Char) : List (List Char) :=
  wsTokensAux [] l

/-! ### Static vocabulary tables (verbatim from `ocr.js`) -/

/-- US state abbreviations used by the address detector. -/
def STATE_ABBREVS : List (List Char) :=
  ["AL", "AK", "AZ", "AR", "CA", "CO", "CT", "DE", "FL", "GA",
   "HI", "ID", "IL", "IN", "IA", "KS", "KY", "LA", "ME", "MD",
   "MA", "MI", "MN", "MS", "MO", "MT", "NE", "NV", "NH", "NJ",
   "NM", "NY", "NC", "ND", "OH", "OK", "OR", "PA", "RI", "SC",
   "SD", "TN", "TX", "UT", "VT", "VA", "WA", "WV", "WI", "WY"].map String.data

/-- Product indicator words (each contained occurrence is worth +30). -/
def PRODUCT_INDICATORS : List (List Char) :=
  ["jacket", "coat", "blender", "set", "pack", "wireless", "leather", "cotton",
   "kitchen", "mixer", "headphones", "speaker", "tablet", "laptop", "camera",
   "shoes", "boots", "sneakers", "dress", "shirt", "pants", "jeans",
   "watch", "ring", "necklace", "bracelet", "earbuds", "charger", "cable",
   "bag", "backpack", "wallet", "purse", "case", "cover", "stand", "holder",
   "tool", "drill", "saw", "vacuum", "cleaner", "iron", "toaster", "oven",
   "pro", "max", "plus", "ultra", "mini", "lite", "edition", "series",
   "womens", "mens", "women", "men", "kids", "boys", "girls",
   "front", "back", "zip", "lined", "fully", "new", "black", "white", "blue",
   "red"].map String.data

/-- Known brand names (each contained occurrence is worth +60). -/
def KNOWN_BRANDS : List (List Char) :=
  ["cole haan", "nike", "adidas", "apple", "samsung", "sony", "lg", "kitchenaid",
   "ninja", "instant pot", "cuisinart", "dyson", "shark", "roomba", "irobot",
   "north face", "patagonia", "columbia", "levi", "calvin klein", "ralph lauren",
   "michael kors", "coach", "kate spade", "gucci", "prada", "louis vuitton",
   "bose", "jbl", "beats", "anker", "logitech", "razer", "hp", "dell", "lenovo",
   "amazon basics", "mainstays", "better homes"].map String.data

/-- Minimum score required to accept a candidate. -/
def MIN_SCORE_THRESHOLD : Int := 50

/-- Storefront chrome strings excluded from candidacy (substring match on the
lowercased clean line). -/
def uiExclusions : List (List Char) :=
  ["your orders", "your account", "buy again", "cart", "checkout",
   "subtotal", "shipping", "tax", "total", "payment",
   "track package", "hello", "sign in", "home", "menu", "search",
   "amazon", "target", "walmart", "prime", "delivery", "return",
   "customer service", "my account", "sign out", "help", "view order"].map String.data

/-! ### Price extraction

The three patterns `\$\s*(\d+[.,]\d{2})`, `USD\s*(\d+[.,]\d{2})` (i) and
`Total[:\s]*\$?\s*(\d+[.,]\d{2})` (i).  For each pattern the code takes the
FIRST match in the whole text (`text.match` without the `g` flag) and keeps
the running maximum of values in the open interval (0, 5000) dollars.
Amounts are in cents.  In each scanner greedy `\d+` / `\s*` runs are maximal:
no shorter run can be followed by the required next character class, so the
deterministic maximal-munch scanner is exact for these patterns. -/

/-- `(\d+[.,]\d{2})` at the current position, returning the amount in cents. -/
def matchAmountAt (l : List Char) : Option Nat :=
  let ds := l.takeWhile Char.isDigit
  let r := l.dropWhile Char.isDigit
  if ds.isEmpty then none
  else
    match r with
    | s :: d1 :: d2 :: _ =>
      if (s == '.' || s == ',') && d1.isDigit && d2.isDigit then
        some (digitsToNat ds * 100 + digitsToNat [d1, d2])
      else none
    | _ => none

/-- `\$\s*(\d+[.,]\d{2})` at the current position. -/
def matchP1At (l : List Char) : Option Nat :=
  match l with
  | c :: r => if c == '$' then matchAmountAt (r.dropWhile isWS) else none
  | [] => none

/-- `USD\s*(\d+[.,]\d{2})` (case-insensitive) at the current position. -/
def matchP2At (l : List Char) : Option Nat :=
  if startsWithCI "usd".data l then matchAmountAt ((l.drop 3).dropWhile isWS)
  else none

/-- `Total[:\s]*\$?\s*(\d+[.,]\d{2})` (case-insensitive) at the current
position.  When a `$` follows the `[:\s]*` run it is consumed greedily; if no
amount follows it, the backtracking branch without the `$` also fails, since
`$` is neither whitespace nor a digit. -/
def matchP3At (l : List Char) : Option Nat :=
  if startsWithCI "total".data l then
    let r := (l.drop 5).dropWhile (fun c => c == ':' || isWS c)
    match r with
    | c :: r2 => if c == '$' then matchAmountAt (r2.dropWhile isWS)
                 else matchAmountAt (c :: r2)
    | [] => none
  else none

/-- One iteration of the price loop:
`if (price > cost && price < 5000) cost = price` (values in cents). -/
def priceStep (cost : Nat) (m : Option Nat) : Nat :=
  match m with
  | some price => if cost < price ∧ price < 500000 then price else cost
  | none => cost

/-- The price extractor of `parseReceiptText` (result in cents). -/
def extractCostCents (text : List Char) : Nat :=
  priceStep (priceStep (priceStep 0 (findFirst matchP1At text))
      (findFirst matchP2At text))
    (findFirst matchP3At text)

/-- Plausibility-bounded value of an optional match: the value if it lies in
the open interval (0, 5000) dollars, else 0 (claim-side helper). -/
def rangeVal : Option Nat → Nat
  | some v => if 0 < v ∧ v < 500000 then v else 0
  | none => 0

/-- ALL matches of a position matcher anywhere in the text (claim-side:
the spec sentence speaks of "all values matched anywhere in the text"). -/
def allMatches (f : List Char → Option Nat) : List Char → List Nat
  | [] => []
  | c :: r =>
    (match f (c :: r) with | some v => [v] | none => []) ++ allMatches f r

/-- Claim-side cost: the maximum over all values matched anywhere in the text
by any of the three price patterns that lie strictly inside (0, 5000) dollars,
and 0 when no such value exists. -/
def claimAllPriceMax (t : List Char) : Nat :=
  ((allMatches matchP1At t ++ allMatches matchP2At t ++ allMatches matchP3At t).filter
    (fun v => decide (0 < v) && decide (v < 500000))).foldl max 0

/-! ### Quantity extraction

Ordered patterns `Qty[:\s]*(\d+)` (i), `Quantity[:\s]*(\d+)` (i),
`(\d+)\s*@\s*\$` (i); the first pattern with a match anywhere in the text
wins, default 1, and the final result is floored at 1. -/

/-- `kw[:\s]*(\d+)` (case-insensitive keyword) at the current position. -/
def matchQtyNumAt (kw : List Char) (l : List Char) : Option Nat :=
  if startsWithCI kw l then
    let r := (l.drop kw.length).dropWhile (fun c => c == ':' || isWS c)
    let ds := r.takeWhile Char.isDigit
    if ds.isEmpty then none else some (digitsToNat ds)
  else none

/-- `(\d+)\s*@\s*\$` at the current position. -/
def matchNAtDollarAt (l : List Char) : Option Nat :=
  let ds := l.takeWhile Char.isDigit
  let r := l.dropWhile Char.isDigit
  if ds.isEmpty then none
  else
    match r.dropWhile isWS with
    | a :: r2 =>
      if a == '@' then
        match r2.dropWhile isWS with
        | b :: _ => if b == '$' then some (digitsToNat ds) else none
        | [] => none
      else none
    | [] => none

/-- The quantity loop of `parseReceiptText`: first matching pattern wins
(`break`), default 1 before flooring. -/
def extractQuantityRaw (text : List Char) : Nat :=
  match findFirst (matchQtyNumAt "qty".data) text with
  | some n => n
  | none =>
    match findFirst (matchQtyNumAt "quantity".data) text with
    | some n => n
    | none =>
      match findFirst matchNAtDollarAt text with
      | some n => n
      | none => 1

/-- Claim-side quantity: try the ordered pattern list, let the first pattern
that matches anywhere win, default 1 when none matches, and floor at 1. -/
def claimQuantity (t : List Char) : Nat :=
  match [matchQtyNumAt "qty".data, matchQtyNumAt "quantity".data,
      matchNAtDollarAt].findSome? (fun f => findFirst f t) with
  | some n => max 1 n
  | none => 1

/-! ### Address detection (`looksLikeAddress`) -/

/-- Is the previous character (if any) a word-boundary-compatible left
context for a `\b` before a word character? -/
def boundaryOk : Option Char → Bool
  | none => true
  | some p => !isWordChar p

/-- Does the word `w` (all word characters) match at the head of `l`,
followed by a `\b` (end of string or a non-word character)? -/
def matchWordAt : List Char → List Char → Bool
  | [], [] => true
  | [], c :: _ => !isWordChar c
  | _ :: _, [] => false
  | a :: w, c :: l => a == c && matchWordAt w l

/-- Does `\b w \b` match anywhere in the text, given the character preceding
the current position (`none` at the start of the string)? -/
def occursAsWordFrom (w : List Char) : Option Char → List Char → Bool
  | prev, [] => boundaryOk prev && matchWordAt w []
  | prev, c :: l =>
    (boundaryOk prev && matchWordAt w (c :: l)) || occursAsWordFrom w (some c) l

/-- `\b` right after a digit: end of string or a non-word character. -/
def boundaryAfter : List Char → Bool
  | [] => true
  | c :: _ => !isWordChar c

/-- `\b\d{5}(-\d{4})?\b` at the current position (greedy branch first). -/
def zipAt (prev : Option Char) (l : List Char) : Bool :=
  boundaryOk prev &&
    match l with
    | d1 :: d2 :: d3 :: d4 :: d5 :: rest =>
      d1.isDigit && d2.isDigit && d3.isDigit && d4.isDigit && d5.isDigit &&
        ((match rest with
          | h :: e1 :: e2 :: e3 :: e4 :: rest2 =>
            h == '-' && e1.isDigit && e2.isDigit && e3.isDigit && e4.isDigit &&
              boundaryAfter rest2
          | _ => false) ||
         boundaryAfter rest)
    | _ => false

/-- `\b\d{5}(-\d{4})?\b` anywhere in the text. -/
def hasZip : Option Char → List Char → Bool
  | _, [] => false
  | prev, c :: r => zipAt prev (c :: r) || hasZip (some c) r

/-- `ship(ping)?\s*to` (case-insensitive) at the current position
(greedy branch with `ping` first, then the branch without). -/
def shipToAt (l : List Char) : Bool :=
  startsWithCI "ship".data l &&
    (let r := l.drop 4
     (startsWithCI "ping".data r &&
        startsWithCI "to".data ((r.drop 4).dropWhile isWS)) ||
       startsWithCI "to".data (r.dropWhile isWS))

/-- `[A-Z][a-z]+\s+[A-Z][a-z]+\s*[—–-]\s*[A-Z]+` at the current position. -/
def nameDashAt (l : List Char) : Bool :=
  match l with
  | c :: rest =>
    c.isUpper &&
      (let low1 := rest.takeWhile Char.isLower
       let r1 := rest.dropWhile Char.isLower
       !low1.isEmpty &&
         (let ws1 := r1.takeWhile isWS
          let r2 := r1.dropWhile isWS
          !ws1.isEmpty &&
            match r2 with
            | c2 :: rest2 =>
              c2.isUpper &&
                (let low2 := rest2.takeWhile Char.isLower
                 let r3 := rest2.dropWhile Char.isLower
                 !low2.isEmpty &&
                   match r3.dropWhile isWS with
                   | d :: r5 =>
                     (d == '—' || d == '–' || d == '-') &&
                       (match r5.dropWhile isWS with
                        | e :: _ => e.isUpper
                        | [] => false)
                   | [] => false)
            | [] => false))
  | [] => false

/-- `looksLikeAddress(line)`: state-abbreviation word on the uppercased line,
or ZIP code, or `ship(ping)? to`, or a `Name Name — REGION` shape. -/
def looksLikeAddress (line : List Char) : Bool :=
  let upper := line.map upCh
  STATE_ABBREVS.any (fun s => occursAsWordFrom s none upper) ||
    hasZip none line ||
    anyTailB shipToAt line ||
    anyTailB nameDashAt line

/-! ### Metadata/noise exclusion (`isExcludedLine`) -/

/-- `^w1\s+w2` (case-insensitive). -/
def startsWsThenCI (w1 w2 : List Char) (l : List Char) : Bool :=
  startsWithCI w1 l &&
    (let r := l.drop w1.length
     !(r.takeWhile isWS).isEmpty && startsWithCI w2 (r.dropWhile isWS))

/-- `^order\s*[#:]` (case-insensitive). -/
def patOrderPunct (l : List Char) : Bool :=
  startsWithCI "order".data l &&
    (match (l.drop 5).dropWhile isWS with
     | c :: _ => c == '#' || c == ':'
     | [] => false)

/-- `\d+\s*@\s*\$?\d+` at the current position. -/
def patUnitPriceAt (l : List Char) : Bool :=
  let ds := l.takeWhile Char.isDigit
  let r := l.dropWhile Char.isDigit
  !ds.isEmpty &&
    (match r.dropWhile isWS with
     | a :: r2 =>
       a == '@' &&
         (match r2.dropWhile isWS with
          | b :: r3 =>
            if b == '$' then
              match r3 with
              | d :: _ => d.isDigit
              | [] => false
            else b.isDigit
          | [] => false)
     | [] => false)

/-- Is there a digit immediately followed by `%` somewhere in the list? -/
def digitPercentIn : List Char → Bool
  | a :: b :: r => (a.isDigit && b == '%') || digitPercentIn (b :: r)
  | _ => false

/-- `\$\d+[.,]\d{2}.*\d+%` at the current position. -/
def patPriceThenPercentAt (l : List Char) : Bool :=
  match l with
  | c :: r =>
    c == '$' &&
      (let ds := r.takeWhile Char.isDigit
       let r2 := r.dropWhile Char.isDigit
       !ds.isEmpty &&
         match r2 with
         | s :: a :: b :: r3 =>
           (s == '.' || s == ',') && a.isDigit && b.isDigit && digitPercentIn r3
         | _ => false)
  | [] => false

/-- `\d+%\s*(off|discount)` (case-insensitive) at the current position. -/
def patPercentOffAt (l : List Char) : Bool :=
  let ds := l.takeWhile Char.isDigit
  let r := l.dropWhile Char.isDigit
  !ds.isEmpty &&
    (match r with
     | p :: r2 =>
       p == '%' &&
         (let r3 := r2.dropWhile isWS
          startsWithCI "off".data r3 || startsWithCI "discount".data r3)
     | [] => false)

/-- `reference\s*price` (case-insensitive) at the current position. -/
def patRefPriceAt (l : List Char) : Bool :=
  startsWithCI "reference".data l &&
    startsWithCI "price".data ((l.drop 9).dropWhile isWS)

/-- Month names of the `^(jan|feb|…|dec)\s+\d+` pattern. -/
def MONTHS : List (List Char) :=
  ["jan", "feb", "mar", "apr", "may", "jun", "jul", "aug", "sep", "oct",
   "nov", "dec"].map String.data

/-- `^(jan|…|dec)\s+\d+` (case-insensitive). -/
def patMonthLead (l : List Char) : Bool :=
  MONTHS.any (fun m =>
    startsWithCI m l &&
      (let r := l.drop 3
       !(r.takeWhile isWS).isEmpty &&
         (match r.dropWhile isWS with
          | c :: _ => c.isDigit
          | [] => false)))

/-- `^\d{1,2}[\/\-]\d{1,2}[\/\-]\d{2,4}`. -/
def patDateLead (l : List Char) : Bool :=
  let d1 := l.takeWhile Char.isDigit
  let r1 := l.dropWhile Char.isDigit
  (d1.length == 1 || d1.length == 2) &&
    (match r1 with
     | s1 :: r2 =>
       (s1 == '/' || s1 == '-') &&
         (let d2 := r2.takeWhile Char.isDigit
          let r3 := r2.dropWhile Char.isDigit
          (d2.length == 1 || d2.length == 2) &&
            (match r3 with
             | s2 :: r4 =>
               (s2 == '/' || s2 == '-') && 2 ≤ (r4.takeWhile Char.isDigit).length
             | [] => false))
     | [] => false)

/-- Case-insensitive equality of two character lists. -/
def ciEq (a b : List Char) : Bool :=
  a.map lowCh == b.map lowCh

/-- `^order\s+details$` (case-insensitive). -/
def patOrderDetails (l : List Char) : Bool :=
  startsWithCI "order".data l &&
    (let r := l.drop 5
     !(r.takeWhile isWS).isEmpty && ciEq (r.dropWhile isWS) "details".data)

/-- `isExcludedLine(line)`: the 23 noise patterns tested on `line.trim()`. -/
def isExcludedLine (line : List Char) : Bool :=
  let l := trimL line
  startsWsThenCI "sold".data "by".data l ||
    startsWsThenCI "ships".data "from".data l ||
    startsWsThenCI "fulfilled".data "by".data l ||
    patOrderPunct l ||
    startsWsThenCI "order".data "date".data l ||
    startsWsThenCI "order".data "placed".data l ||
    startsWsThenCI "order".data "number".data l ||
    startsWithCI "arriving".data l ||
    startsWithCI "delivered".data l ||
    startsWithCI "tracking".data l ||
    startsWithCI "condition:".data l ||
    startsWithCI "color:".data l ||
    startsWithCI "size:".data l ||
    startsWithCI "gender:".data l ||
    startsWithCI "quantity:".data l ||
    anyTailB patUnitPriceAt l ||
    anyTailB patPriceThenPercentAt l ||
    anyTailB patPercentOffAt l ||
    anyTailB patRefPriceAt l ||
    patMonthLead l ||
    patDateLead l ||
    patOrderDetails l ||
    ciEq l "help".data

/-! ### Structural validity and cleanup -/

/-- `isValidProductName(line)`: at least two tokens of length > 1, a
letter-to-length proportion of at least 0.6 (`5·letters ≥ 3·length`, exact
for the rationals reachable here), length at least 15, and a leading letter. -/
def isValidProductName (line : List Char) : Bool :=
  let words := (wsTokens line).filter (fun w => 1 < w.length)
  if words.length < 2 then false
  else
    let letters := (line.filter Char.isAlpha).length
    if 5 * letters < 3 * line.length then false
    else if line.length < 15 then false
    else
      match line with
      | c :: _ => c.isAlpha
      | [] => false

/-- The character class `[|=\-*#@$%\s]` of the leading-noise strip. -/
def stripLeadChar (c : Char) : Bool :=
  c == '|' || c == '=' || c == '-' || c == '*' || c == '#' || c == '@' ||
    c == '$' || c == '%' || isWS c

/-- Per-line cleanup:
`line.replace(/^[|=\-*#@$%\s]+/, '').replace(/[|]+$/, '').trim()`. -/
def cleanupLine (l : List Char) : List Char :=
  trimL (((l.dropWhile stripLeadChar).reverse.dropWhile (fun c => c == '|')).reverse)

/-! ### Candidate scoring -/

/-- `getProductIndicatorScore(line)`: +30 per contained indicator word,
+60 per contained brand name, on the lowercased line. -/
def getProductIndicatorScore (line : List Char) : Int :=
  let lower := line.map lowCh
  KNOWN_BRANDS.foldl (fun s w => if containsSub w lower then s + 60 else s)
    (PRODUCT_INDICATORS.foldl (fun s w => if containsSub w lower then s + 30 else s) 0)

/-- `/^[A-Z][a-z]/` on the clean line. -/
def capStart (l : List Char) : Bool :=
  match l with
  | a :: b :: _ => a.isUpper && b.isLower
  | _ => false

/-- Number of matches of `/\b[A-Z][a-z]{2,}/g`: positions with a word
boundary, an uppercase letter, and at least two following lowercase letters.
Matches of this pattern cannot overlap, so the per-position count is the
global match count. -/
def capWordCountFrom : Option Char → List Char → Nat
  | _, [] => 0
  | prev, c :: r =>
    (if boundaryOk prev && c.isUpper &&
        (match r with
         | a :: b :: _ => a.isLower && b.isLower
         | _ => false)
     then 1 else 0) + capWordCountFrom (some c) r

/-- One of `S M L X` in either case. -/
def isSizeLetter (c : Char) : Bool :=
  let d := lowCh c
  d == 's' || d == 'm' || d == 'l' || d == 'x'

/-- `\([SMLX]{1,2}\)|\(Small\)|\(Medium\)|\(Large\)` (i) at the position. -/
def sizeParenAt (l : List Char) : Bool :=
  (match l with
   | p :: a :: b :: q :: _ => p == '(' && isSizeLetter a && isSizeLetter b && q == ')'
   | _ => false) ||
    (match l with
     | p :: a :: q :: _ => p == '(' && isSizeLetter a && q == ')'
     | _ => false) ||
    startsWithCI "(small)".data l ||
    startsWithCI "(medium)".data l ||
    startsWithCI "(large)".data l

/-- Size-qualifier parenthetical anywhere in the line. -/
def hasSizeParen (l : List Char) : Bool :=
  anyTailB sizeParenAt l

/-- `score += getProductIndicatorScore(cleanLine)`. -/
def addIndicatorScore (line : List Char) (s : Int) : Int :=
  s + getProductIndicatorScore line

/-- `if (20 ≤ len ≤ 70) score += 25; else if (15 ≤ len ≤ 90) score += 10`. -/
def addLengthBonus (line : List Char) (s : Int) : Int :=
  if 20 ≤ line.length ∧ line.length ≤ 70 then s + 25
  else if 15 ≤ line.length ∧ line.length ≤ 90 then s + 10
  else s

/-- `if (4 ≤ wordCount ≤ 12) score += 25; else if (wordCount ≥ 3) score += 10`. -/
def addWordCountBonus (line : List Char) (s : Int) : Int :=
  if 4 ≤ (wsTokens line).length ∧ (wsTokens line).length ≤ 12 then s + 25
  else if 3 ≤ (wsTokens line).length then s + 10
  else s

/-- `if (/^[A-Z][a-z]/.test(cleanLine)) score += 15`. -/
def addCapStartBonus (line : List Char) (s : Int) : Int :=
  if capStart line then s + 15 else s

/-- `if (capitalizedWords ≥ 2) score += 20`. -/
def addMultiCapBonus (line : List Char) (s : Int) : Int :=
  if 2 ≤ capWordCountFrom none line then s + 20 else s

/-- `if (size parenthetical) score += 30`. -/
def addSizeBonus (line : List Char) (s : Int) : Int :=
  if hasSizeParen line then s + 30 else s

/-- `if (0.15 ≤ position ≤ 0.55) score += 15`, with the position ratio
`index/n` compared by exact cross-multiplication. -/
def addSweetSpotBonus (index n : Nat) (s : Int) : Int :=
  if 3 * n ≤ 20 * index ∧ 20 * index ≤ 11 * n then s + 15 else s

/-- `if (position < 0.08 || position > 0.85) score -= 25`, cross-multiplied. -/
def addPenalty (index n : Nat) (s : Int) : Int :=
  if 25 * index < 2 * n ∨ 17 * n < 20 * index then s - 25 else s

/-- The sequential scoring block of `parseReceiptText` for one clean line at
position `index` among `n` surviving lines: the `score += …` statements of
the source applied in order to the initial score 0. -/
def scoreLine (cleanLine : List Char) (index n : Nat) : Int :=
  addPenalty index n
    (addSweetSpotBonus index n
      (addSizeBonus cleanLine
        (addMultiCapBonus cleanLine
          (addCapStartBonus cleanLine
            (addWordCountBonus cleanLine
              (addLengthBonus cleanLine
                (addIndicatorScore cleanLine 0)))))))

/-! ### Candidates, selection, and the assembled parser -/

/-- A scored candidate `{line, score, index}`. -/
structure Cand where
  line : List Char
  score : Int
  index : Nat
deriving DecidableEq

/-- The body of the `lines.forEach` loop: all filters, then scoring. -/
def processLine (n index : Nat) (line : List Char) : Option Cand :=
  let cleanLine := cleanupLine line
  if cleanLine.length < 12 ∨ 120 < cleanLine.length then none
  else if isValidProductName cleanLine = false then none
  else if uiExclusions.any (fun p => containsSub p (cleanLine.map lowCh)) then none
  else if looksLikeAddress cleanLine then none
  else if isExcludedLine cleanLine then none
  else some ⟨cleanLine, scoreLine cleanLine index n, index⟩

/-- All candidates of the surviving lines, in document order. -/
def candidatesOf (lines : List (List Char)) : List Cand :=
  lines.enum.filterMap (fun p => processLine lines.length p.1 p.2)

/-- Stable insertion for the descending-score sort: an element already in
place stays before the inserted one exactly when its score is strictly
larger or equal-with-earlier-position, mirroring the ECMAScript stable
`sort((a, b) => b.score - a.score)`. -/
def insertByScore (c : Cand) : List Cand → List Cand
  | [] => [c]
  | d :: ds => if c.score < d.score then d :: insertByScore c ds else c :: d :: ds

/-- Stable sort of the candidates by descending score. -/
def sortCands : List Cand → List Cand
  | [] => []
  | c :: cs => insertByScore c (sortCands cs)

/-- The selection loop: the first candidate (in sorted order) with score at
least the threshold wins; otherwise the sentinel. -/
def pickBest : List Cand → List Char
  | [] => "Unnamed Item".data
  | c :: cs => if MIN_SCORE_THRESHOLD ≤ c.score then c.line else pickBest cs

/-- The candidate selector including the final
`bestName.substring(0, 100).trim()`. -/
def selectName (cands : List Cand) : List Char :=
  trimL ((pickBest (sortCands cands)).take 100)

/-- A concrete candidate set (two equal scores, increasing indices) used to
witness the selector specification. -/
def csW : List Cand :=
  [Cand.mk "Alpha Beta Gamma Delta".data 80 3,
   Cand.mk "Epsilon Zeta Eta Theta".data 80 5]

/-- The result record of `parseReceiptText` (cost in cents). -/
structure ParsedReceipt where
  name : List Char
  costCents : Nat
  quantity : Nat
deriving DecidableEq

/-- `parseReceiptText(text)`. -/
def parseReceiptText (text : List Char) : ParsedReceipt :=
  let lines := normalizeText text
  ⟨selectName (candidatesOf lines), extractCostCents text,
    max 1 (extractQuantityRaw text)⟩

/-- The record returned by `extractOrderData` (cost in cents; on the success
path the JavaScript object spread leaves `error` absent, modelled as `none`). -/
structure ExtractionResult where
  success : Bool
  error : Option (List Char)
  rawText : List Char
  name : List Char
  costCents : Nat
  quantity : Nat
deriving DecidableEq

/-- `extractOrderData`, with the fallible OCR collaborator abstracted as an
`Except`: `Except.error e` is a recognition failure with message `e`,
`Except.ok text` a successful recognition.  The `try/catch` of the source is
the match on the two constructors; the Lean function is total, so no failure
can propagate. -/
def extractOrderData (ocr : Except (List Char) (List Char)) : ExtractionResult :=
  match ocr with
  | Except.ok text =>
    let d := parseReceiptText text
    ⟨true, none, text, d.name, d.costCents, d.quantity⟩
  | Except.error e => ⟨false, some e, [], "Unnamed Item".data, 0, 1⟩

/-! ### Claim-side definitions for scoring and classification -/

/-- Claim-side score: the plain additive sum of the nine independent bonuses
of the spec's scoring table. -/
def claimedScore (l : List Char) (index n : Nat) : Int :=
  30 * (PRODUCT_INDICATORS.countP (fun w => containsSub w (l.map lowCh)) : Int) +
    60 * (KNOWN_BRANDS.countP (fun w => containsSub w (l.map lowCh)) : Int) +
    (if 20 ≤ l.length ∧ l.length ≤ 70 then 25
     else if 15 ≤ l.length ∧ l.length ≤ 90 then 10 else 0) +
    (if 4 ≤ (wsTokens l).length ∧ (wsTokens l).length ≤ 12 then 25
     else if 3 ≤ (wsTokens l).length then 10 else 0) +
    (if capStart l then 15 else 0) +
    (if 2 ≤ capWordCountFrom none l then 20 else 0) +
    (if hasSizeParen l then 30 else 0) +
    (if 3 * n ≤ 20 * index ∧ 20 * index ≤ 11 * n then 15 else 0) +
    (if 25 * index < 2 * n ∨ 17 * n < 20 * index then -25 else 0)

/-- The accept/reject outcome of cleanup + the 12–120 length gate + the
structural-validity predicate on one raw line (the stages named by the
idempotence property). -/
def classifyLine (l : List Char) : Bool :=
  let c := cleanupLine l
  !(decide (c.length < 12) || decide (120 < c.length)) && isValidProductName c

/-! ### Theorems -/

/-- C1 (counterexample): the universally quantified scenario claim fails.
The text below has normalized lines containing the product line
`"Cole Haan Men's Grand Crosscourt Sneaker (M)"` at mid-document position
(index 2 of 6, ratio 1/3 ∈ [0.15, 0.55]) together with the three lines
`"Ship to: John Smith — CA 90210"`, `"Total: $89.99"` and `"Qty: 2"`, yet
`parseReceiptText` extracts cost 4999.00 (the in-range maximum seen first by
the `$` pattern), not 89.99. -/
theorem scenario_claim_not_universal :
    (normalizeText "My Receipt\n$4999.00\nCole Haan Men's Grand Crosscourt Sneaker (M)\nShip to: John Smith — CA 90210\nTotal: $89.99\nQty: 2".data).get? 2 =
      some "Cole Haan Men's Grand Crosscourt Sneaker (M)".data ∧
    (normalizeText "My Receipt\n$4999.00\nCole Haan Men's Grand Crosscourt Sneaker (M)\nShip to: John Smith — CA 90210\nTotal: $89.99\nQty: 2".data).length = 6 ∧
    "Ship to: John Smith — CA 90210".data ∈
      normalizeText "My Receipt\n$4999.00\nCole Haan Men's Grand Crosscourt Sneaker (M)\nShip to: John Smith — CA 90210\nTotal: $89.99\nQty: 2".data ∧
    "Total: $89.99".data ∈
      normalizeText "My Receipt\n$4999.00\nCole Haan Men's Grand Crosscourt Sneaker (M)\nShip to: John Smith — CA 90210\nTotal: $89.99\nQty: 2".data ∧
    "Qty: 2".data ∈
      normalizeText "My Receipt\n$4999.00\nCole Haan Men's Grand Crosscourt Sneaker (M)\nShip to: John Smith — CA 90210\nTotal: $89.99\nQty: 2".data ∧
    (parseReceiptText "My Receipt\n$4999.00\nCole Haan Men's Grand Crosscourt Sneaker (M)\nShip to: John Smith — CA 90210\nTotal: $89.99\nQty: 2".data).costCents = 499900 ∧
    (parseReceiptText "My Receipt\n$4999.00\nCole Haan Men's Grand Crosscourt Sneaker (M)\nShip to: John Smith — CA 90210\nTotal: $89.99\nQty: 2".data).costCents ≠ 8999 := by
  decide

/-- C1 (amended): for the scenario receipt itself — the four quoted lines,
product line at mid-document position, no other in-range dollar amounts —
`parseReceiptText` returns name `"Cole Haan Men's Grand Crosscourt Sneaker
(M)"`, cost 89.99 (8999 cents) and quantity 2; the address line is
address-like and never appears among the candidates. -/
theorem scenario_extraction_ok :
    parseReceiptText "My Receipt\nCole Haan Men's Grand Crosscourt Sneaker (M)\nShip to: John Smith — CA 90210\nTotal: $89.99\nQty: 2".data =
      ⟨"Cole Haan Men's Grand Crosscourt Sneaker (M)".data, 8999, 2⟩ ∧
    looksLikeAddress "Ship to: John Smith — CA 90210".data = true ∧
    (∀ c ∈ candidatesOf (normalizeText "My Receipt\nCole Haan Men's Grand Crosscourt Sneaker (M)\nShip to: John Smith — CA 90210\nTotal: $89.99\nQty: 2".data),
      c.line ≠ "Ship to: John Smith — CA 90210".data) := by
  decide

/-- C2 (counterexample): in `"$12.00 $45.00"` both amounts are matched
somewhere in the text by the `$` pattern and both lie in (0, 5000), so the
claimed "maximum over all values matched anywhere" is 45.00 — but the code
takes only the FIRST match of each pattern (`text.match` without `g`), so the
extracted cost is 12.00. -/
theorem cost_not_max_over_all_matches :
    claimAllPriceMax "$12.00 $45.00".data = 4500 ∧
    extractCostCents "$12.00 $45.00".data = 1200 ∧
    extractCostCents "$12.00 $45.00".data ≠ claimAllPriceMax "$12.00 $45.00".data := by
  decide

/-- Each step of the price loop keeps the running maximum of in-range
values. -/
theorem priceStep_eq_max (c : Nat) (m : Option Nat) :
    priceStep c m = max c (rangeVal m) := by
  cases m with
  | none => simp [priceStep, rangeVal]
  | some p =>
    simp only [priceStep, rangeVal]
    split_ifs <;> omega

/-- C2 (amended): the extracted cost equals the maximum over the FIRST match
of each of the three price patterns of the values strictly between 0 and
5000 dollars, and 0 when no such value exists. -/
theorem extractCost_eq_first_match_max (t : List Char) :
    extractCostCents t =
      max (rangeVal (findFirst matchP1At t))
        (max (rangeVal (findFirst matchP2At t)) (rangeVal (findFirst matchP3At t))) := by
  simp only [extractCostCents, priceStep_eq_max]
  omega

/-- C5: the quantity of the parsed receipt is the floored-at-1 result of the
ordered first-match-wins pattern list, and is always at least 1. -/
theorem quantity_first_pattern_floored (t : List Char) :
    (parseReceiptText t).quantity = claimQuantity t ∧
    1 ≤ (parseReceiptText t).quantity := by
  have h : max 1 (extractQuantityRaw t) = claimQuantity t := by
    simp only [extractQuantityRaw, claimQuantity, List.findSome?]
    cases findFirst (matchQtyNumAt "qty".data) t with
    | some n => rfl
    | none =>
      cases findFirst (matchQtyNumAt "quantity".data) t with
      | some n => rfl
      | none =>
        cases findFirst matchNAtDollarAt t with
        | some n => rfl
        | none => rfl
  refine ⟨h, ?_⟩
  simp [parseReceiptText]

/-- C6 (counterexample): for the text `"3 @ $5.00\nQty: 7"` the `N @ $`
pattern matches with 3 and the `Qty: N` pattern matches with 7, but the code
checks `Qty: N` FIRST, so the extracted quantity is 7, not the claimed 3. -/
theorem quantity_qty_pattern_wins :
    findFirst matchNAtDollarAt "3 @ $5.00\nQty: 7".data = some 3 ∧
    (parseReceiptText "3 @ $5.00\nQty: 7".data).quantity = 7 ∧
    (parseReceiptText "3 @ $5.00\nQty: 7".data).quantity ≠ 3 := by
  decide

/-- C6 (amended): the fixed pattern order is `Qty: N`, `Quantity: N`,
`N @ $`; for the scenario text containing `"3 @ $5.00"` and later `"Qty: 7"`
the first pattern of the list already matches (yielding 7), so the quantity
is 7 under first-pattern-wins. -/
theorem quantity_pattern_order_fixed :
    findFirst (matchQtyNumAt "qty".data) "3 @ $5.00\nQty: 7".data = some 7 ∧
    extractQuantityRaw "3 @ $5.00\nQty: 7".data = 7 ∧
    (parseReceiptText "3 @ $5.00\nQty: 7".data).quantity = 7 := by
  decide

/-- C8: on any failure of the OCR collaborator (the only fallible step),
`extractOrderData` returns — never throws — the record with `success = false`,
the error message, and the default fields `name = "Unnamed Item"`, `cost = 0`,
`quantity = 1`. -/
theorem ocr_failure_returns_defaults (e : List Char) :
    extractOrderData (Except.error e) =
      ⟨false, some e, [], "Unnamed Item".data, 0, 1⟩ := rfl

/-- C7 (counterexample): classification is NOT idempotent.  For the raw line
`"Abcdefghijk lm| |"` the cleanup strips only the last pipe and the trailing
space, leaving the 15-character clean line `"Abcdefghijk lm|"`, which is
accepted; re-running classification on that already-cleaned line strips the
now-trailing pipe, leaving 14 characters, which fails the `length ≥ 15`
check of `isValidProductName` — the accept/reject outcome flips. -/
theorem classify_not_idempotent :
    cleanupLine "Abcdefghijk lm| |".data = "Abcdefghijk lm|".data ∧
    classifyLine "Abcdefghijk lm| |".data = true ∧
    classifyLine (cleanupLine "Abcdefghijk lm| |".data) = false := by
  decide

/-- Heads surviving `dropWhile` falsify the predicate. -/
theorem head?_dropWhile_false (p : Char → Bool) (l : List Char) (ch : Char)
    (h : (l.dropWhile p).head? = some ch) : p ch = false := by
  induction l with
  | nil => simp at h
  | cons a l ih =>
    rw [List.dropWhile_cons] at h
    split at h
    · exact ih h
    · simp only [List.head?_cons, Option.some.injEq] at h
      subst h
      simp_all
  
/-- `dropWhile` is the identity when the head (if any) falsifies the
predicate. -/
theorem dropWhile_eq_self_of_head (p : Char → Bool) (l : List Char)
    (h : ∀ ch, l.head? = some ch → p ch = false) : l.dropWhile p = l := by
  cases l with
  | nil => rfl
  | cons a l => rw [List.dropWhile_cons, h a rfl]; simp

/-- Removing a suffix computed by reversed `dropWhile` preserves the head. -/
theorem head?_revDropWhile (q : Char → Bool) (a : List Char) (ch : Char)
    (h : ((a.reverse.dropWhile q).reverse).head? = some ch) :
    a.head? = some ch := by
  have hsuf : a.reverse.dropWhile q <:+ a.reverse := List.dropWhile_suffix q
  obtain ⟨u, hu⟩ := hsuf
  have ha : a = (a.reverse.dropWhile q).reverse ++ u.reverse := by
    have := congrArg List.reverse hu
    simpa [List.reverse_append] using this.symm
  rw [ha]
  cases hrev : (a.reverse.dropWhile q).reverse with
  | nil => rw [hrev] at h; simp at h
  | cons x xs =>
    rw [hrev] at h
    simp only [List.head?_cons, Option.some.injEq] at h
    subst h
    rfl

/-- The head of a cleaned line is never a strip-set character. -/
theorem cleanupLine_head (l : List Char) (ch : Char)
    (h : (cleanupLine l).head? = some ch) : stripLeadChar ch = false := by
  unfold cleanupLine trimL at h
  -- peel the outer trailing-whitespace strip
  have h1 : ((((l.dropWhile stripLeadChar).reverse.dropWhile (fun c => c == '|')).reverse).dropWhile isWS).head? = some ch :=
    head?_revDropWhile isWS _ ch h
  -- the head survived `dropWhile isWS`, hence it is the head of the input
  -- to that strip unless the strip dropped a prefix; in both cases it is a
  -- head of a `dropWhile stripLeadChar` result or satisfies `¬ isWS`.
  -- We argue directly: a head surviving `dropWhile isWS` of a list whose
  -- head is not a strip char is that same head.
  have h2 : (((l.dropWhile stripLeadChar).reverse.dropWhile (fun c => c == '|')).reverse).head? = some ch ∨ isWS ch = false := by
    right
    exact head?_dropWhile_false isWS _ ch h1
  -- stronger: the head of the pipe-stripped list is a head of
  -- `l.dropWhile stripLeadChar`
  have h3 : ∀ c, (((l.dropWhile stripLeadChar).reverse.dropWhile (fun c => c == '|')).reverse).head? = some c → stripLeadChar c = false := by
    intro c hc
    exact head?_dropWhile_false stripLeadChar l c (head?_revDropWhile _ _ _ hc)
  -- the `dropWhile isWS` in `h1` is the identity, because the head of its
  -- input already falsifies `stripLeadChar` (which contains `isWS`)
  have h4 : (((l.dropWhile stripLeadChar).reverse.dropWhile (fun c => c == '|')).reverse).dropWhile isWS = ((l.dropWhile stripLeadChar).reverse.dropWhile (fun c => c == '|')).reverse := by
    apply dropWhile_eq_self_of_head
    intro c hc
    have hs := h3 c hc
    simp only [stripLeadChar, Bool.or_eq_false_iff] at hs
    exact hs.2
  rw [h4] at h1
  exact h3 ch h1

/-- The last character of a cleaned line is never whitespace. -/
theorem cleanupLine_last_not_ws (l : List Char) (ch : Char)
    (h : (cleanupLine l).reverse.head? = some ch) : isWS ch = false := by
  unfold cleanupLine trimL at h
  rw [List.reverse_reverse] at h
  exact head?_dropWhile_false isWS _ ch h

/-- A list whose head is outside the strip set and whose last character is
neither a pipe nor whitespace is a fixed point of `cleanupLine`. -/
theorem cleanupLine_fixed (c : List Char)
    (hh : ∀ ch, c.head? = some ch → stripLeadChar ch = false)
    (hl : ∀ ch, c.reverse.head? = some ch → (ch == '|') = false ∧ isWS ch = false) :
    cleanupLine c = c := by
  unfold cleanupLine trimL
  rw [dropWhile_eq_self_of_head stripLeadChar c hh]
  rw [dropWhile_eq_self_of_head (fun c => c == '|') c.reverse (fun ch h => (hl ch h).1)]
  rw [List.reverse_reverse]
  rw [dropWhile_eq_self_of_head isWS c (fun ch h => by
    have hs := hh ch h
    simp only [stripLeadChar, Bool.or_eq_false_iff] at hs
    exact hs.2)]
  rw [dropWhile_eq_self_of_head isWS c.reverse (fun ch h => (hl ch h).2)]
  rw [List.reverse_reverse]

/-- C7 (amended): classification IS idempotent for every line whose cleaned
form does not end in a pipe character — on such lines `cleanupLine` is a
fixed point of itself, so cleanup + length gate + structural validity give
the same accept/reject outcome on the already-cleaned line. -/
theorem classify_idempotent_unless_trailing_pipe (l : List Char)
    (h : ∀ ch, (cleanupLine l).reverse.head? = some ch → ch ≠ '|') :
    classifyLine (cleanupLine l) = classifyLine l := by
  have hfix : cleanupLine (cleanupLine l) = cleanupLine l := by
    apply cleanupLine_fixed
    · exact cleanupLine_head l
    · intro ch hch
      refine ⟨?_, cleanupLine_last_not_ws l ch hch⟩
      have := h ch hch
      simp [this]
  simp only [classifyLine, hfix]

/-- Witness for the amended C7 at the concrete line
`"Nice Cotton Jacket Large"` (clean form does not end in a pipe). -/
theorem classify_idempotent_witness :
    (∀ ch, (cleanupLine "Nice Cotton Jacket Large".data).reverse.head? = some ch → ch ≠ '|') ∧
    classifyLine (cleanupLine "Nice Cotton Jacket Large".data) =
      classifyLine "Nice Cotton Jacket Large".data :=
  ⟨by decide, classify_idempotent_unless_trailing_pipe _ (by decide)⟩

/-- Membership in an insertion. -/
theorem mem_insertByScore (x c : Cand) (l : List Cand) :
    x ∈ insertByScore c l ↔ x = c ∨ x ∈ l := by
  induction l with
  | nil => simp [insertByScore]
  | cons d ds ih =>
    simp only [insertByScore]
    split
    · simp only [List.mem_cons, ih]
      tauto
    · simp only [List.mem_cons]

/-- The sorted list has the same members as the input. -/
theorem mem_sortCands (x : Cand) (cs : List Cand) :
    x ∈ sortCands cs ↔ x ∈ cs := by
  induction cs with
  | nil => simp [sortCands]
  | cons c cs ih =>
    simp only [sortCands, mem_insertByScore, List.mem_cons, ih]

/-- The head of the stable descending sort is the earliest candidate of
maximal score: it dominates every score, and among equal scores it carries
the smallest index, provided the indices increase along the input list. -/
theorem sortCands_head (cs : List Cand) (hne : cs ≠ [])
    (hmono : cs.Pairwise (fun a b => a.index < b.index)) :
    ∃ b tl, sortCands cs = b :: tl ∧ b ∈ cs ∧
      (∀ d ∈ cs, d.score ≤ b.score) ∧
      (∀ d ∈ cs, d.score = b.score → b.index ≤ d.index) := by
  induction cs with
  | nil => exact absurd rfl hne
  | cons c cs ih =>
    rw [List.pairwise_cons] at hmono
    obtain ⟨hidx, hpw⟩ := hmono
    cases cs with
    | nil =>
      refine ⟨c, [], rfl, List.mem_singleton.mpr rfl, ?_, ?_⟩
      · intro d hd; rw [List.mem_singleton] at hd; subst hd; exact le_refl _
      · intro d hd _; rw [List.mem_singleton] at hd; subst hd; exact le_refl _
    | cons c2 cs2 =>
      obtain ⟨b, tl, hsort, hmem, hmax, hminidx⟩ :=
        ih (by simp) hpw
      simp only [sortCands] at hsort ⊢
      rw [hsort]
      simp only [insertByScore]
      by_cases hlt : c.score < b.score
      · rw [if_pos hlt]
        refine ⟨b, insertByScore c tl, rfl, List.mem_cons_of_mem _ hmem, ?_, ?_⟩
        · intro d hd
          rcases List.mem_cons.mp hd with h | h
          · subst h; exact le_of_lt hlt
          · exact hmax d h
        · intro d hd heq
          rcases List.mem_cons.mp hd with h | h
          · subst h; omega
          · exact hminidx d h heq
      · rw [if_neg hlt]
        push_neg at hlt
        refine ⟨c, b :: tl, rfl, List.mem_cons_self _ _, ?_, ?_⟩
        · intro d hd
          rcases List.mem_cons.mp hd with h | h
          · subst h; exact le_refl _
          · exact le_trans (hmax d h) hlt
        · intro d hd _
          rcases List.mem_cons.mp hd with h | h
          · subst h; exact le_refl _
          · exact le_of_lt (hidx d h)

/-- When every candidate scores below the threshold the selection loop
returns the sentinel. -/
theorem pickBest_sentinel (l : List Cand)
    (h : ∀ x ∈ l, x.score < MIN_SCORE_THRESHOLD) :
    pickBest l = "Unnamed Item".data := by
  induction l with
  | nil => rfl
  | cons c cs ih =>
    simp only [pickBest]
    rw [if_neg (by have := h c (List.mem_cons_self _ _); omega)]
    exact ih (fun x hx => h x (List.mem_cons_of_mem _ hx))

/-- C3: candidate selection sorts by score descending with ties broken by
the smaller original index (given indices increasing along the candidate
list, as `parseReceiptText` produces them); the top candidate is accepted
only when its score reaches the threshold 50, the accepted name is truncated
to 100 characters and re-trimmed, otherwise the sentinel `"Unnamed Item"` is
returned; and selection of an identical candidate set is deterministic. -/
theorem selectName_spec (cs : List Cand)
    (hmono : cs.Pairwise (fun a b => a.index < b.index)) :
    selectName cs = selectName cs ∧
    ((∀ c ∈ cs, c.score < MIN_SCORE_THRESHOLD) →
      selectName cs = "Unnamed Item".data) ∧
    (∀ c ∈ cs, MIN_SCORE_THRESHOLD ≤ c.score →
      ∃ b ∈ cs, (∀ d ∈ cs, d.score ≤ b.score) ∧
        (∀ d ∈ cs, d.score = b.score → b.index ≤ d.index) ∧
        selectName cs = trimL (b.line.take 100)) := by
  refine ⟨rfl, ?_, ?_⟩
  · intro hall
    unfold selectName
    rw [pickBest_sentinel _ (fun x hx => hall x ((mem_sortCands x cs).mp hx))]
    decide
  · intro c hc hth
    obtain ⟨b, tl, hsort, hmem, hmax, hminidx⟩ :=
      sortCands_head cs (by intro h; subst h; simp at hc) hmono
    refine ⟨b, hmem, hmax, hminidx, ?_⟩
    unfold selectName
    rw [hsort]
    simp only [pickBest]
    rw [if_pos (le_trans hth (hmax c hc))]

/-- Witness for C3 at a concrete two-candidate set with equal scores:
the earlier index wins. -/
theorem selectName_spec_witness :
    (List.Pairwise (fun a b => a.index < b.index) csW) ∧
    (selectName csW = selectName csW ∧
     ((∀ c ∈ csW, c.score < MIN_SCORE_THRESHOLD) →
       selectName csW = "Unnamed Item".data) ∧
     (∀ c ∈ csW, MIN_SCORE_THRESHOLD ≤ c.score →
       ∃ b ∈ csW, (∀ d ∈ csW, d.score ≤ b.score) ∧
         (∀ d ∈ csW, d.score = b.score → b.index ≤ d.index) ∧
         selectName csW = trimL (b.line.take 100))) :=
  ⟨by simp [csW, List.pairwise_cons], selectName_spec csW (by simp [csW, List.pairwise_cons])⟩

/-- Folding a conditional increment over a list counts the hits. -/
theorem foldl_if_add (k : Int) (p : List Char → Bool) (ws : List (List Char)) :
    ∀ a : Int,
      ws.foldl (fun s w => if p w then s + k else s) a = a + k * (ws.countP p : Int) := by
  induction ws with
  | nil => intro a; simp
  | cons w ws ih =>
    intro a
    simp only [List.foldl_cons, List.countP_cons, ih]
    by_cases h : p w
    · simp only [h, if_true]
      push_cast
      ring
    · simp [h]

/-- The two vocabulary loops of `getProductIndicatorScore` add 30 per
contained indicator and 60 per contained brand. -/
theorem getProductIndicatorScore_eq (l : List Char) :
    getProductIndicatorScore l =
      30 * (PRODUCT_INDICATORS.countP (fun w => containsSub w (l.map lowCh)) : Int) +
        60 * (KNOWN_BRANDS.countP (fun w => containsSub w (l.map lowCh)) : Int) := by
  unfold getProductIndicatorScore
  rw [foldl_if_add, foldl_if_add]
  ring

/-- Each scoring step adds its bonus summand. -/
theorem addLengthBonus_eq (line : List Char) (s : Int) :
    addLengthBonus line s =
      s + (if 20 ≤ line.length ∧ line.length ≤ 70 then 25
           else if 15 ≤ line.length ∧ line.length ≤ 90 then 10 else 0) := by
  unfold addLengthBonus
  split_ifs <;> ring

theorem addWordCountBonus_eq (line : List Char) (s : Int) :
    addWordCountBonus line s =
      s + (if 4 ≤ (wsTokens line).length ∧ (wsTokens line).length ≤ 12 then 25
           else if 3 ≤ (wsTokens line).length then 10 else 0) := by
  unfold addWordCountBonus
  split_ifs <;> ring

theorem addCapStartBonus_eq (line : List Char) (s : Int) :
    addCapStartBonus line s = s + (if capStart line then 15 else 0) := by
  unfold addCapStartBonus
  split_ifs <;> ring

theorem addMultiCapBonus_eq (line : List Char) (s : Int) :
    addMultiCapBonus line s =
      s + (if 2 ≤ capWordCountFrom none line then 20 else 0) := by
  unfold addMultiCapBonus
  split_ifs <;> ring

theorem addSizeBonus_eq (line : List Char) (s : Int) :
    addSizeBonus line s = s + (if hasSizeParen line then 30 else 0) := by
  unfold addSizeBonus
  split_ifs <;> ring

theorem addSweetSpotBonus_eq (index n : Nat) (s : Int) :
    addSweetSpotBonus index n s =
      s + (if 3 * n ≤ 20 * index ∧ 20 * index ≤ 11 * n then 15 else 0) := by
  unfold addSweetSpotBonus
  split_ifs <;> ring

theorem addPenalty_eq (index n : Nat) (s : Int) :
    addPenalty index n s =
      s + (if 25 * index < 2 * n ∨ 17 * n < 20 * index then -25 else 0) := by
  unfold addPenalty
  split_ifs <;> ring

/-- The sequential scoring block equals the additive bonus sum. -/
theorem scoreLine_eq_claimedScore (l : List Char) (index n : Nat) :
    scoreLine l index n = claimedScore l index n := by
  unfold scoreLine claimedScore addIndicatorScore
  rw [addLengthBonus_eq, addWordCountBonus_eq, addCapStartBonus_eq,
    addMultiCapBonus_eq, addSizeBonus_eq, addSweetSpotBonus_eq, addPenalty_eq,
    getProductIndicatorScore_eq]
  ring

/-- C4: every candidate (i.e., every line that survives all classifier
filters) carries exactly the additive sum of the nine independent bonuses —
+30 per contained product-indicator term, +60 per contained brand term, the
length bonus, the token-count bonus, +15 for a title-case start, +20 for at
least two capitalized words, +30 for a size parenthetical, +15 in the
positional sweet spot and −25 in the positional penalty zone — with no
normalization and no cap. -/
theorem candidate_score_additive (lines : List (List Char)) (c : Cand)
    (hc : c ∈ candidatesOf lines) :
    c.score = claimedScore c.line c.index lines.length := by
  simp only [candidatesOf, List.mem_filterMap] at hc
  obtain ⟨p, _, hp⟩ := hc
  simp only [processLine] at hp
  split_ifs at hp
  simp only [Option.some.injEq] at hp
  subst hp
  exact scoreLine_eq_claimedScore _ _ _

/-- Witness for C4 at the Cole Haan candidate of the scenario receipt. -/
theorem candidate_score_additive_witness :
    (Cand.mk "Cole Haan Men's Grand Crosscourt Sneaker (M)".data 220 1 ∈
      candidatesOf (normalizeText "My Receipt\nCole Haan Men's Grand Crosscourt Sneaker (M)\nShip to: John Smith — CA 90210\nTotal: $89.99\nQty: 2".data)) ∧
    (Cand.mk "Cole Haan Men's Grand Crosscourt Sneaker (M)".data 220 1).score =
      claimedScore "Cole Haan Men's Grand Crosscourt Sneaker (M)".data 1
        (normalizeText "My Receipt\nCole Haan Men's Grand Crosscourt Sneaker (M)\nShip to: John Smith — CA 90210\nTotal: $89.99\nQty: 2".data).length :=
  ⟨by decide, candidate_score_additive _ _ (by decide)⟩

/-- Every segment produced by the line splitter of an all-whitespace text
(with an all-whitespace accumulator) is all-whitespace. -/
theorem splitLinesAux_all_ws (l : List Char) :
    ∀ cur : List Char, (∀ c ∈ l, isWS c = true) → (∀ c ∈ cur, isWS c = true) →
      ∀ p ∈ splitLinesAux cur l, ∀ c ∈ p, isWS c = true := by
  induction l with
  | nil =>
    intro cur _ hcur p hp c hc
    simp only [splitLinesAux, List.mem_singleton] at hp
    subst hp
    exact hcur c (List.mem_reverse.mp hc)
  | cons a l ih =>
    intro cur hl hcur p hp c hc
    simp only [splitLinesAux] at hp
    split at hp
    · rcases List.mem_cons.mp hp with h | h
      · subst h
        exact hcur c (List.mem_reverse.mp hc)
      · exact ih [] (fun c hc => hl c (List.mem_cons_of_mem _ hc)) (by simp) p h c hc
    · exact ih (a :: cur)
        (fun c hc => hl c (List.mem_cons_of_mem _ hc))
        (fun c hc => by
          rcases List.mem_cons.mp hc with h | h
          · subst h; exact hl c (List.mem_cons_self _ _)
          · exact hcur c h)
        p hp c hc

/-- Trimming an all-whitespace line yields the empty line. -/
theorem trimL_all_ws (p : List Char) (h : ∀ c ∈ p, isWS c = true) :
    trimL p = [] := by
  unfold trimL
  have h1 : p.dropWhile isWS = [] := by
    rw [List.dropWhile_eq_nil_iff]
    exact fun x hx => h x hx
  rw [h1]
  rfl

/-- The normalizer drops every line of an all-whitespace text. -/
theorem normalizeText_all_ws (t : List Char) (h : ∀ c ∈ t, isWS c = true) :
    normalizeText t = [] := by
  unfold normalizeText
  rw [List.filter_eq_nil_iff]
  intro x hx
  rw [List.mem_map] at hx
  obtain ⟨p, hp, hpx⟩ := hx
  have : x = [] := by
    rw [← hpx]
    exact trimL_all_ws p (splitLinesAux_all_ws t [] h (by simp) p hp)
  simp [this]

/-- A position matcher that fails whenever the current character is
whitespace finds nothing in an all-whitespace text. -/
theorem findFirst_none_of_ws (f : List Char → Option Nat)
    (hf : ∀ c r, isWS c = true → f (c :: r) = none) (l : List Char)
    (h : ∀ c ∈ l, isWS c = true) : findFirst f l = none := by
  induction l with
  | nil => rfl
  | cons c r ih =>
    simp only [findFirst]
    rw [hf c r (h c (List.mem_cons_self _ _))]
    exact ih (fun c hc => h c (List.mem_cons_of_mem _ hc))

/-- The six concrete whitespace characters. -/
theorem isWS_cases (c : Char) (h : isWS c = true) :
    c = ' ' ∨ c = '\t' ∨ c = '\n' ∨ c = '\r' ∨ c = '\x0b' ∨ c = '\x0c' := by
  simp only [isWS, Bool.or_eq_true, beq_iff_eq] at h
  tauto

/-- No price/quantity pattern can start on a whitespace character. -/
theorem matchP1At_ws (c : Char) (r : List Char) (h : isWS c = true) :
    matchP1At (c :: r) = none := by
  rcases isWS_cases c h with h | h | h | h | h | h <;> subst h <;> rfl

theorem matchP2At_ws (c : Char) (r : List Char) (h : isWS c = true) :
    matchP2At (c :: r) = none := by
  rcases isWS_cases c h with h | h | h | h | h | h <;> subst h <;> rfl

theorem matchP3At_ws (c : Char) (r : List Char) (h : isWS c = true) :
    matchP3At (c :: r) = none := by
  rcases isWS_cases c h with h | h | h | h | h | h <;> subst h <;> rfl

theorem matchQtyKw_ws (c : Char) (r : List Char) (h : isWS c = true) :
    matchQtyNumAt "qty".data (c :: r) = none := by
  rcases isWS_cases c h with h | h | h | h | h | h <;> subst h <;> rfl

theorem matchQuantityKw_ws (c : Char) (r : List Char) (h : isWS c = true) :
    matchQtyNumAt "quantity".data (c :: r) = none := by
  rcases isWS_cases c h with h | h | h | h | h | h <;> subst h <;> rfl

theorem matchNAtDollarAt_ws (c : Char) (r : List Char) (h : isWS c = true) :
    matchNAtDollarAt (c :: r) = none := by
  rcases isWS_cases c h with h | h | h | h | h | h <;> subst h <;> rfl

/-- C9: for every empty or whitespace-only raw text the normalizer yields an
empty line sequence and the extraction returns the defaults
`name = "Unnamed Item"`, `cost = 0`, `quantity = 1` with `success = true`. -/
theorem whitespace_only_defaults (t : List Char)
    (h : ∀ c ∈ t, isWS c = true) :
    normalizeText t = [] ∧
    parseReceiptText t = ⟨"Unnamed Item".data, 0, 1⟩ ∧
    extractOrderData (Except.ok t) =
      ⟨true, none, t, "Unnamed Item".data, 0, 1⟩ := by
  have hnorm : normalizeText t = [] := normalizeText_all_ws t h
  have hp1 : findFirst matchP1At t = none :=
    findFirst_none_of_ws _ matchP1At_ws t h
  have hp2 : findFirst matchP2At t = none :=
    findFirst_none_of_ws _ matchP2At_ws t h
  have hp3 : findFirst matchP3At t = none :=
    findFirst_none_of_ws _ matchP3At_ws t h
  have hq1 : findFirst (matchQtyNumAt "qty".data) t = none :=
    findFirst_none_of_ws _ matchQtyKw_ws t h
  have hq2 : findFirst (matchQtyNumAt "quantity".data) t = none :=
    findFirst_none_of_ws _ matchQuantityKw_ws t h
  have hq3 : findFirst matchNAtDollarAt t = none :=
    findFirst_none_of_ws _ matchNAtDollarAt_ws t h
  have hparse : parseReceiptText t = ⟨"Unnamed Item".data, 0, 1⟩ := by
    unfold parseReceiptText extractCostCents extractQuantityRaw
    rw [hnorm, hp1, hp2, hp3, hq1, hq2, hq3]
    rfl
  refine ⟨hnorm, hparse, ?_⟩
  show (let d := parseReceiptText t
        ExtractionResult.mk true none t d.name d.costCents d.quantity) =
    ExtractionResult.mk true none t "Unnamed Item".data 0 1
  rw [hparse]

/-- Witness for C9 at the concrete whitespace-only text `" \n\t "`. -/
theorem whitespace_only_defaults_witness :
    (∀ c ∈ " \n\t ".data, isWS c = true) ∧
    (normalizeText " \n\t ".data = [] ∧
     parseReceiptText " \n\t ".data = ⟨"Unnamed Item".data, 0, 1⟩ ∧
     extractOrderData (Except.ok " \n\t ".data) =
       ⟨true, none, " \n\t ".data, "Unnamed Item".data, 0, 1⟩) :=
  ⟨by decide, whitespace_only_defaults _ (by decide)⟩

/-- Upper-casing preserves word-characterhood (`\b` boundaries are stable
under the `toUpperCase` applied by the address detector). -/
theorem isWordChar_upCh (c : Char) : isWordChar (upCh c) = isWordChar c := by
  unfold upCh
  cases hf : upPairs.find? (fun p => p.1 == c) with
  | none => rfl
  | some p =>
    have hmem : p ∈ upPairs := List.mem_of_find?_eq_some hf
    have hc : p.1 = c := by simpa using List.find?_some hf
    have htab : ∀ q ∈ upPairs, isWordChar q.1 = true ∧ isWordChar q.2 = true := by
      decide
    rw [← hc, (htab p hmem).1, (htab p hmem).2]

/-- A word match at a position survives upper-casing of both the word and
the text. -/
theorem matchWordAt_map_upCh (w : List Char) :
    ∀ l : List Char, matchWordAt w l = true →
      matchWordAt (w.map upCh) (l.map upCh) = true := by
  induction w with
  | nil =>
    intro l h
    cases l with
    | nil => rfl
    | cons c r =>
      simp only [matchWordAt] at h
      simp only [List.map_cons, List.map_nil, matchWordAt, isWordChar_upCh]
      exact h
  | cons a w ih =>
    intro l h
    cases l with
    | nil => exact absurd h (by simp [matchWordAt])
    | cons c r =>
      simp only [matchWordAt, Bool.and_eq_true, beq_iff_eq] at h
      obtain ⟨hac, hm⟩ := h
      subst hac
      simp only [List.map_cons, matchWordAt, Bool.and_eq_true, beq_iff_eq]
      exact ⟨trivial, ih r hm⟩

/-- A standalone-word occurrence survives upper-casing of word, previous
character and text. -/
theorem occurs_map_upCh (w : List Char) :
    ∀ (l : List Char) (prev : Option Char),
      occursAsWordFrom w prev l = true →
      occursAsWordFrom (w.map upCh) (prev.map upCh) (l.map upCh) = true := by
  intro l
  induction l with
  | nil =>
    intro prev h
    simp only [occursAsWordFrom, Bool.and_eq_true] at h
    obtain ⟨hb, hm⟩ := h
    simp only [List.map_nil, occursAsWordFrom, Bool.and_eq_true]
    refine ⟨?_, matchWordAt_map_upCh w [] hm⟩
    cases prev with
    | none => rfl
    | some p =>
      simp only [boundaryOk, Option.map_some', Bool.not_eq_true'] at hb ⊢
      rw [isWordChar_upCh]
      exact hb
  | cons c r ih =>
    intro prev h
    simp only [occursAsWordFrom, Bool.or_eq_true, Bool.and_eq_true] at h
    simp only [List.map_cons, occursAsWordFrom, Bool.or_eq_true, Bool.and_eq_true]
    rcases h with ⟨hb, hm⟩ | h
    · left
      refine ⟨?_, by simpa using matchWordAt_map_upCh w (c :: r) hm⟩
      cases prev with
      | none => rfl
      | some p =>
        simp only [boundaryOk, Option.map_some', Bool.not_eq_true'] at hb ⊢
        rw [isWordChar_upCh]
        exact hb
    · right
      simpa using ih (some c) h

/-- C10: because `looksLikeAddress` upper-cases the line before testing each
two-letter state abbreviation with word boundaries, any line containing a
standalone two-letter word spelling a state code in any letter case — in
particular the lowercase English words "in", "or", "me", "hi", "ok", "oh",
"la", "pa", "ma" — is classified address-like; and no line classified
address-like (after cleanup) ever becomes a candidate, hence can never be
selected as the product name. -/
theorem lowercase_state_words_block :
    (∀ (l w : List Char),
      w ∈ ["in".data, "or".data, "me".data, "hi".data, "ok".data,
        "oh".data, "la".data, "pa".data, "ma".data] →
      occursAsWordFrom w none l = true →
      looksLikeAddress l = true) ∧
    (∀ (lines : List (List Char)) (c : Cand), c ∈ candidatesOf lines →
      looksLikeAddress c.line = false) := by
  constructor
  · intro l w hw hocc
    have hmap := occurs_map_upCh w l none hocc
    have hstate : w.map upCh ∈ STATE_ABBREVS := by
      fin_cases hw <;> decide
    simp only [looksLikeAddress]
    have hany : STATE_ABBREVS.any (fun s => occursAsWordFrom s none (l.map upCh)) = true := by
      rw [List.any_eq_true]
      exact ⟨w.map upCh, hstate, hmap⟩
    rw [hany]
    rfl
  · intro lines c hc
    simp only [candidatesOf, List.mem_filterMap] at hc
    obtain ⟨p, _, hp⟩ := hc
    simp only [processLine] at hp
    split_ifs at hp with h1 h2 h3 h4 h5
    simp only [Option.some.injEq] at hp
    subst hp
    simpa using h4

/-- Witness for C10: `"Made in Italy leather goods"` contains the standalone
lowercase word "in", so it is classified address-like. -/
theorem lowercase_state_words_block_witness :
    ("in".data ∈ ["in".data, "or".data, "me".data, "hi".data, "ok".data,
       "oh".data, "la".data, "pa".data, "ma".data]) ∧
    occursAsWordFrom "in".data none "Made in Italy leather goods".data = true ∧
    looksLikeAddress "Made in Italy leather goods".data = true :=
  ⟨by decide, by decide,
    lowercase_state_words_block.1 "Made in Italy leather goods".data "in".data
      (by decide) (by decide)⟩
